import Mathlib

/-!
Verification of the session-recording playback engine of the Glyptodon
Enterprise player (the `SessionRecording` factory in
`src/main/webapp/modules/player/directives/player.js`).

The JavaScript source is shallowly embedded: each private function of the
`SessionRecording` factory becomes a Lean definition of the same name, and
the mutable variables of a recording become fields of explicit state
structures (`IngestState` for the loading phase, `RecordingState` for the
playback engine).  JavaScript `while`/`for` loops are embedded as
recursive functions (fuelled where the measure is not structural),
asynchronous callback chains as explicit state-passing functions, and JS
numbers as `Nat`/`Int` as appropriate.  JS strings are modelled as Lean
strings, so `value.length` counts Unicode code points.
-/

namespace SessionRecordingModel

/-! ## Wire-format element sizes (`getElementSize`, player.js lines 657-674) -/

/-- One iteration of the `while (valueLength >= 10)` loop of
`getElementSize`: each pass divides `valueLength` by 10 and adds one
character for an additional digit of the length prefix.  The second
argument is fuel; `valueLength + 1` units always suffice because the loop
variable strictly decreases. -/
def extraDigitsGo : Nat → Nat → Nat
  | _, 0 => 0
  | valueLength, fuel + 1 =>
    if valueLength ≥ 10 then extraDigitsGo (valueLength / 10) fuel + 1 else 0

/-- Total number of iterations of the digit loop of `getElementSize`,
i.e. the number of digits of `valueLength` beyond the first. -/
def extraLengthDigits (valueLength : Nat) : Nat :=
  extraDigitsGo valueLength (valueLength + 1)

/-- `getElementSize(value)` (player.js 657-674): the size, in Unicode code
points, of the encoded Guacamole element whose decoded value is `value`:
at least one digit of the length prefix, the `.` separator, the value
itself and the `,`/`;` terminator, plus one character per additional
digit of the length prefix. -/
def getElementSize (value : String) : Nat :=
  value.length + 3 + extraLengthDigits value.length

/-! ## The wire encoding of elements and instructions (spec section 4.2)

The Guacamole instruction grammar: an instruction is a non-empty
comma-separated sequence of elements terminated by `;`, each element of
the form `LENGTH.VALUE` with `LENGTH` the decimal code-point count of
`VALUE`.  The encoding is defined here so that the element-size law and
the blob-size bookkeeping of the frame indexer can be stated against the
actual encoded text. -/

/-- The decimal digit character for `n < 10`. -/
def digitChar (n : Nat) : Char := Char.ofNat (48 + n)

/-- Decimal digits of `n`, most significant first (fuelled division
loop; `n + 1` units of fuel always suffice). -/
def decDigitsGo : Nat → Nat → List Char
  | _, 0 => []
  | n, fuel + 1 =>
    if n < 10 then [digitChar n] else decDigitsGo (n / 10) fuel ++ [digitChar (n % 10)]

/-- Decimal digits of `n`, most significant first; `decDigits 0 = ['0']`. -/
def decDigits (n : Nat) : List Char := decDigitsGo n (n + 1)

/-- The encoding `LENGTH.VALUE` of one element followed by its `,` or `;`
separator. -/
def encodeElement (value : String) (sep : Char) : String :=
  ⟨decDigits value.length ++ '.' :: value.data ++ [sep]⟩

/-- A parsed Guacamole instruction: an opcode and its arguments. -/
structure Instr where
  opcode : String
  args : List String
  deriving DecidableEq, Repr, Inhabited

/-- Encode a non-empty element list: elements separated by `,`, the last
one terminated by `;`. -/
def encodeElems : List String → String
  | [] => ""
  | [v] => encodeElement v ';'
  | v :: rest => encodeElement v ',' ++ encodeElems rest

/-- The wire encoding of one instruction. -/
def encodeInstr (instr : Instr) : String :=
  encodeElems (instr.opcode :: instr.args)

/-- The wire encoding of a whole recording blob: the concatenation of the
encodings of its instructions. -/
def encodeRecording : List Instr → String
  | [] => ""
  | instr :: rest => encodeInstr instr ++ encodeRecording rest

/-- The number of code points the frame indexer advances `frameEnd` by for
one instruction: the element sizes of the opcode and of every argument. -/
def instrSize (instr : Instr) : Nat :=
  getElementSize instr.opcode + (instr.args.map getElementSize).sum

lemma extraDigitsGo_succ (n fuel : Nat) :
    extraDigitsGo n (fuel + 1) =
      if n ≥ 10 then extraDigitsGo (n / 10) fuel + 1 else 0 := rfl

lemma decDigitsGo_length :
    ∀ (fuel n : Nat), n < fuel → (decDigitsGo n fuel).length = extraDigitsGo n fuel + 1 := by
  intro fuel
  induction fuel with
  | zero => intro n h; omega
  | succ k ih =>
    intro n h
    rw [decDigitsGo, extraDigitsGo_succ]
    by_cases h10 : n < 10
    · simp [h10]
    · have hdiv : n / 10 < n := Nat.div_lt_self (by omega) (by omega)
      simp only [h10, if_false, ge_iff_le, (by omega : 10 ≤ n), if_true]
      rw [List.length_append, ih (n / 10) (by omega)]
      simp

lemma decDigits_length (n : Nat) : (decDigits n).length = extraLengthDigits n + 1 :=
  decDigitsGo_length (n + 1) n (Nat.lt_succ_self n)

lemma encodeElement_length (value : String) (sep : Char) :
    (encodeElement value sep).length = getElementSize value := by
  show (decDigits value.length ++ '.' :: value.data ++ [sep]).length = getElementSize value
  rw [getElementSize]
  simp only [List.length_append, List.length_cons, List.length_nil, decDigits_length]
  rw [show value.length = value.data.length from rfl]
  omega

/-- **C1.** Element-size law: `getElementSize(value)` equals the
code-point length `L` of `value`, plus the number of decimal digits of
`L`, plus 2; equivalently, it is exactly the code-point length of the
encoded element `LENGTH.VALUE` together with its `,`/`;` terminator. -/
theorem getElementSize_law (value : String) (sep : Char) :
    getElementSize value = value.length + (decDigits value.length).length + 2 ∧
    (encodeElement value sep).length = getElementSize value := by
  refine ⟨?_, encodeElement_length value sep⟩
  rw [decDigits_length, getElementSize]
  omega

/-! ## Frames and the frame indexer (player.js lines 683-723, 1258-1305) -/

/-- An opaque snapshot of display-client state, as returned by
`exportState`.  The engine stores and returns it unchanged; it is
modelled by the index of the frame at which it was captured. -/
structure ClientState where
  snapshot : Nat
  deriving DecidableEq, Repr, Inhabited

/-- `SessionRecording._Frame` (player.js 1258-1305).  `start`/`«end»` are
the half-open byte range of the frame's instructions within the blob;
`keyframe` defaults to `false` and `clientState` to absent, exactly as in
the `_Frame` constructor. -/
structure Frame where
  timestamp : Int
  start : Nat
  «end» : Nat
  keyframe : Bool := false
  clientState : Option ClientState := none
  deriving DecidableEq, Repr, Inhabited

/-- `KEYFRAME_CHAR_INTERVAL` (player.js 427). -/
def KEYFRAME_CHAR_INTERVAL : Int := 16384

/-- `KEYFRAME_TIME_INTERVAL` (player.js 436). -/
def KEYFRAME_TIME_INTERVAL : Int := 5000

/-- Parse a canonical non-empty decimal digit string.  This models the
`parseInt(args[0])` call of the frame indexer on the inputs a valid
recording supplies; a string that JS would parse to `NaN` yields
`none`. -/
def parseDec (s : String) : Option Nat :=
  if s.data ≠ [] ∧ s.data.all (fun c => c.isDigit) then
    some (s.data.foldl (fun acc c => acc * 10 + (c.toNat - 48)) 0)
  else none

/-- The timestamp the indexer stores for a `sync` instruction with the
given arguments: `parseInt(args[0])`, defaulting to 0 where JS would
produce `NaN` (valid recordings never hit the default). -/
def tsOf (args : List String) : Int :=
  ((parseDec (args.headD "")).getD 0 : Nat)

/-- The mutable state of the initial loading pass: the `frames` array, the
`lastKeyframe` index, and the `frameStart`/`frameEnd` cursors (player.js
444-533). -/
structure IngestState where
  frames : List Frame
  lastKeyframe : Nat
  frameStart : Nat
  frameEnd : Nat
  deriving DecidableEq, Repr, Inhabited

/-- The loading state a fresh `SessionRecording` starts from. -/
def initIngest : IngestState := ⟨[], 0, 0, 0⟩

/-- `handleInstruction(opcode, args)` (player.js 683-715): advance
`frameEnd` by the instruction's encoded size; on `sync`, push a frame
covering `[frameStart, frameEnd)`, advance `frameStart`, and flag the
frame as a keyframe if it is the first frame or if both the character and
time intervals since the last keyframe have been reached.  The source
pushes the frame first and mutates its `keyframe` field afterwards; the
flag is computed here before the push, against the same appended array
the source reads `frames[lastKeyframe]` from. -/
def handleInstruction (rec : IngestState) (instr : Instr) : IngestState :=
  let frameEnd := rec.frameEnd + instrSize instr
  if instr.opcode = "sync" then
    let timestamp := tsOf instr.args
    let frame : Frame := { timestamp := timestamp, start := rec.frameStart, «end» := frameEnd }
    let frames := rec.frames ++ [frame]
    let prevKf := frames.getD rec.lastKeyframe default
    if frames.length = 1 ∨
        ((frameEnd : Int) - prevKf.start ≥ KEYFRAME_CHAR_INTERVAL ∧
          timestamp - prevKf.timestamp ≥ KEYFRAME_TIME_INTERVAL) then
      { frames := rec.frames ++ [{ frame with keyframe := true }],
        lastKeyframe := frames.length - 1,
        frameStart := frameEnd, frameEnd := frameEnd }
    else
      { frames := frames, lastKeyframe := rec.lastKeyframe,
        frameStart := frameEnd, frameEnd := frameEnd }
  else
    { rec with frameEnd := frameEnd }

/-- Full ingest of a blob: the indexer walks the whole instruction stream
in order, invoking `handleInstruction` for every parsed instruction. -/
def ingest (instrs : List Instr) : IngestState :=
  instrs.foldl handleInstruction initIngest

lemma handleInstruction_not_sync (rec : IngestState) (instr : Instr)
    (h : instr.opcode ≠ "sync") :
    handleInstruction rec instr = { rec with frameEnd := rec.frameEnd + instrSize instr } := by
  rw [handleInstruction]
  simp only [h, if_false]

/-! ### A concrete ingest with three keyframes

A recording whose payload bulk sits in non-keyframe frames: frame 0 is the
unconditional first keyframe, frame 2 becomes a keyframe (both intervals
reached), and frame 3 becomes a keyframe because its *end* is far enough
past frame 2's *start*, even though the two keyframes' starts are only 14
characters apart. -/

/-- A 16480-character argument. -/
def payloadA : String := ⟨List.replicate 16480 'a'⟩

/-- A 16470-character argument. -/
def payloadB : String := ⟨List.replicate 16470 'a'⟩

lemma payloadA_length : payloadA.length = 16480 := by
  show (List.replicate 16480 'a').length = 16480
  rw [List.length_replicate]

lemma payloadB_length : payloadB.length = 16470 := by
  show (List.replicate 16470 'a').length = 16470
  rw [List.length_replicate]

lemma instrSize_blobA : instrSize ⟨"blob", [payloadA]⟩ = 16494 := by
  rw [instrSize]
  simp only [List.map, List.sum_cons, List.sum_nil, getElementSize, payloadA_length]
  decide

lemma instrSize_blobB : instrSize ⟨"blob", [payloadB]⟩ = 16484 := by
  rw [instrSize]
  simp only [List.map, List.sum_cons, List.sum_nil, getElementSize, payloadB_length]
  decide

/-- The instruction stream of the three-keyframe recording. -/
def kfInstrs : List Instr :=
  [⟨"sync", ["0"]⟩, ⟨"blob", [payloadA]⟩, ⟨"sync", ["100"]⟩, ⟨"sync", ["5000"]⟩,
   ⟨"blob", [payloadB]⟩, ⟨"sync", ["10000"]⟩]

/-- The frame table produced by ingesting `kfInstrs`. -/
def kfFrames : List Frame :=
  [{ timestamp := 0, start := 0, «end» := 11, keyframe := true },
   { timestamp := 100, start := 11, «end» := 16518 },
   { timestamp := 5000, start := 16518, «end» := 16532, keyframe := true },
   { timestamp := 10000, start := 16532, «end» := 33031, keyframe := true }]

lemma ingest_kfInstrs : ingest kfInstrs = ⟨kfFrames, 3, 33031, 33031⟩ := by
  have h1 : handleInstruction initIngest ⟨"sync", ["0"]⟩ =
      ⟨[⟨0, 0, 11, true, none⟩], 0, 11, 11⟩ := by decide
  have h2 : handleInstruction ⟨[⟨0, 0, 11, true, none⟩], 0, 11, 11⟩ ⟨"blob", [payloadA]⟩ =
      ⟨[⟨0, 0, 11, true, none⟩], 0, 11, 16505⟩ := by
    rw [handleInstruction_not_sync _ _ (by decide), instrSize_blobA]
  have h3 : handleInstruction ⟨[⟨0, 0, 11, true, none⟩], 0, 11, 16505⟩ ⟨"sync", ["100"]⟩ =
      ⟨[⟨0, 0, 11, true, none⟩, ⟨100, 11, 16518, false, none⟩], 0, 16518, 16518⟩ := by decide
  have h4 : handleInstruction
      ⟨[⟨0, 0, 11, true, none⟩, ⟨100, 11, 16518, false, none⟩], 0, 16518, 16518⟩
      ⟨"sync", ["5000"]⟩ =
      ⟨[⟨0, 0, 11, true, none⟩, ⟨100, 11, 16518, false, none⟩, ⟨5000, 16518, 16532, true, none⟩],
        2, 16532, 16532⟩ := by decide
  have h5 : handleInstruction
      ⟨[⟨0, 0, 11, true, none⟩, ⟨100, 11, 16518, false, none⟩, ⟨5000, 16518, 16532, true, none⟩],
        2, 16532, 16532⟩ ⟨"blob", [payloadB]⟩ =
      ⟨[⟨0, 0, 11, true, none⟩, ⟨100, 11, 16518, false, none⟩, ⟨5000, 16518, 16532, true, none⟩],
        2, 16532, 33016⟩ := by
    rw [handleInstruction_not_sync _ _ (by decide), instrSize_blobB]
  have h6 : handleInstruction
      ⟨[⟨0, 0, 11, true, none⟩, ⟨100, 11, 16518, false, none⟩, ⟨5000, 16518, 16532, true, none⟩],
        2, 16532, 33016⟩ ⟨"sync", ["10000"]⟩ = ⟨kfFrames, 3, 33031, 33031⟩ := by decide
  simp only [ingest, kfInstrs, List.foldl_cons, List.foldl_nil, h1, h2, h3, h4, h5, h6]

/-! ## C3: contiguity and exhaustiveness of the frame table -/

/-- A frame list is contiguous from offset `s`: the first frame starts at
`s` and every frame starts where its predecessor ended. -/
def chainFrom : Nat → List Frame → Prop
  | _, [] => True
  | s, f :: rest => f.start = s ∧ chainFrom f.«end» rest

/-- The end offset of the last frame of a list, or `s` when empty. -/
def lastEndFrom (s : Nat) (frames : List Frame) : Nat :=
  ((frames.getLast?).map (fun f => f.«end»)).getD s

lemma lastEndFrom_nil (s : Nat) : lastEndFrom s [] = s := rfl

lemma lastEndFrom_concat (s : Nat) (frames : List Frame) (f : Frame) :
    lastEndFrom s (frames ++ [f]) = f.«end» := by
  rw [lastEndFrom, List.getLast?_concat]
  rfl

lemma lastEndFrom_cons (s : Nat) (g : Frame) (rest : List Frame) :
    lastEndFrom s (g :: rest) = lastEndFrom g.«end» rest := by
  cases rest with
  | nil => rfl
  | cons h t =>
    obtain ⟨a, ha⟩ : ∃ a, (h :: t).getLast? = some a := by
      cases e : (h :: t).getLast? with
      | some a => exact ⟨a, rfl⟩
      | none => exact absurd (List.getLast?_eq_none_iff.mp e) (by simp)
    rw [lastEndFrom, lastEndFrom, List.getLast?_cons_cons, ha]
    rfl

lemma chainFrom_concat :
    ∀ (frames : List Frame) (s : Nat) (f : Frame), chainFrom s frames →
      f.start = lastEndFrom s frames → chainFrom s (frames ++ [f]) := by
  intro frames
  induction frames with
  | nil => intro s f _ hf; exact ⟨by rw [hf, lastEndFrom_nil], trivial⟩
  | cons g rest ih =>
    intro s f hc hf
    exact ⟨hc.1, ih g.«end» f hc.2 (by rw [hf, lastEndFrom_cons])⟩

lemma chainFrom_head :
    ∀ (frames : List Frame) (s : Nat), chainFrom s frames → frames ≠ [] →
      (frames.headD default).start = s := by
  intro frames s hc hne
  cases frames with
  | nil => exact absurd rfl hne
  | cons g rest => exact hc.1

lemma chainFrom_link :
    ∀ (frames : List Frame) (s : Nat) (i : Nat), chainFrom s frames →
      i + 1 < frames.length →
      (frames.getD i default).«end» = (frames.getD (i + 1) default).start := by
  intro frames
  induction frames with
  | nil => intro s i _ h; simp at h
  | cons g rest ih =>
    intro s i hc h
    cases i with
    | zero =>
      cases rest with
      | nil => simp at h
      | cons g2 rest2 =>
        show g.«end» = g2.start
        rw [hc.2.1]
    | succ j =>
      show (rest.getD j default).«end» = (rest.getD (j + 1) default).start
      exact ih g.«end» j hc.2 (by simpa using h)

lemma lastEndFrom_eq_getLast (s : Nat) (frames : List Frame) (h : frames ≠ []) :
    lastEndFrom s frames = (frames.getLast h).«end» := by
  rw [lastEndFrom, List.getLast?_eq_getLast frames h]
  rfl

/-- The timestamp of an instruction if it is a `sync`, else nothing. -/
def syncTs (instr : Instr) : Option Int :=
  if instr.opcode = "sync" then some (tsOf instr.args) else none

/-- Loading-pass invariant, stated for the state reached after handling
the instruction prefix `p`: the frame table is a contiguous chain from
offset 0, `frameStart` sits at the end of the last complete frame,
`frameEnd` has advanced by exactly the encoded size of `p`, and the frame
timestamps are exactly the timestamps of the `sync` instructions of `p`
in order. -/
def IngestInv (p : List Instr) (s : IngestState) : Prop :=
  chainFrom 0 s.frames ∧
  s.frameStart = lastEndFrom 0 s.frames ∧
  s.frameEnd = (p.map instrSize).sum ∧
  s.frames.map Frame.timestamp = p.filterMap syncTs

lemma ingestInv_init : IngestInv [] initIngest := by
  refine ⟨trivial, rfl, rfl, rfl⟩

lemma handleInstruction_sync_fields (s : IngestState) (instr : Instr)
    (h : instr.opcode = "sync") :
    ∃ kf : Bool,
      (handleInstruction s instr).frames =
        s.frames ++ [{ timestamp := tsOf instr.args, start := s.frameStart,
                       «end» := s.frameEnd + instrSize instr, keyframe := kf }] ∧
      (handleInstruction s instr).frameStart = s.frameEnd + instrSize instr ∧
      (handleInstruction s instr).frameEnd = s.frameEnd + instrSize instr := by
  rw [handleInstruction]
  simp only [h, if_true]
  split
  · exact ⟨true, rfl, rfl, rfl⟩
  · exact ⟨false, rfl, rfl, rfl⟩

lemma ingestInv_step (p : List Instr) (s : IngestState) (instr : Instr)
    (hinv : IngestInv p s) : IngestInv (p ++ [instr]) (handleInstruction s instr) := by
  obtain ⟨hchain, hstart, hend, hts⟩ := hinv
  by_cases hop : instr.opcode = "sync"
  · obtain ⟨kf, hfr, hfs, hfe⟩ := handleInstruction_sync_fields s instr hop
    refine ⟨?_, ?_, ?_, ?_⟩
    · rw [hfr]
      refine chainFrom_concat _ _ _ hchain ?_
      simp only [Frame.mk.injEq]
      exact hstart
    · rw [hfr, hfs, lastEndFrom_concat]
    · rw [hfe, hend]
      simp [List.sum_append]
    · rw [hfr, List.map_append, hts, List.filterMap_append]
      simp [syncTs, hop]
  · rw [handleInstruction_not_sync s instr hop]
    refine ⟨hchain, hstart, ?_, ?_⟩
    · rw [hend]
      simp [List.sum_append]
    · rw [hts, List.filterMap_append]
      simp [syncTs, hop]

lemma ingest_append_single (p : List Instr) (instr : Instr) :
    ingest (p ++ [instr]) = handleInstruction (ingest p) instr := by
  simp [ingest, List.foldl_append]

lemma ingest_inv (instrs : List Instr) : IngestInv instrs (ingest instrs) := by
  induction instrs using List.reverseRecOn with
  | nil => exact ingestInv_init
  | append_singleton p instr ih =>
    rw [ingest_append_single]
    exact ingestInv_step p (ingest p) instr ih

/-- A well-formed (valid) recording stream: non-empty, ending at a frame
boundary (the final instruction is the last frame's `sync`), every `sync`
carrying a parseable decimal timestamp, and the `sync` timestamps
non-decreasing in stream order. -/
def WellFormedRecording (instrs : List Instr) : Prop :=
  instrs ≠ [] ∧
  instrs.getLast?.map Instr.opcode = some "sync" ∧
  (∀ i ∈ instrs, i.opcode = "sync" → (parseDec (i.args.headD "")).isSome = true) ∧
  List.Pairwise (fun a b => a ≤ b) (instrs.filterMap syncTs)

instance (instrs : List Instr) : Decidable (WellFormedRecording instrs) := by
  unfold WellFormedRecording
  infer_instance

lemma strLength_append (a b : String) : (a ++ b).length = a.length + b.length := by
  cases a with
  | mk da =>
    cases b with
    | mk db =>
      show (da ++ db).length = da.length + db.length
      exact List.length_append da db

lemma encodeElems_length :
    ∀ (l : List String), l ≠ [] → (encodeElems l).length = (l.map getElementSize).sum
  | [], h => absurd rfl h
  | [v], _ => by
    show (encodeElement v ';').length = ([v].map getElementSize).sum
    rw [encodeElement_length]
    simp
  | v :: w :: rest, _ => by
    show (encodeElement v ',' ++ encodeElems (w :: rest)).length = _
    rw [strLength_append, encodeElement_length, encodeElems_length (w :: rest) (by simp)]
    simp

lemma encodeInstr_length (instr : Instr) : (encodeInstr instr).length = instrSize instr := by
  rw [encodeInstr, encodeElems_length (instr.opcode :: instr.args) (by simp), instrSize]
  simp

lemma encodeRecording_length :
    ∀ (instrs : List Instr), (encodeRecording instrs).length = (instrs.map instrSize).sum
  | [] => rfl
  | instr :: rest => by
    show (encodeInstr instr ++ encodeRecording rest).length = _
    rw [strLength_append, encodeInstr_length, encodeRecording_length rest]
    simp

lemma handleInstruction_sync_start (s : IngestState) (instr : Instr)
    (h : instr.opcode = "sync") :
    (handleInstruction s instr).frameStart = (handleInstruction s instr).frameEnd := by
  obtain ⟨kf, _, h1, h2⟩ := handleInstruction_sync_fields s instr h
  rw [h1, h2]

/-- **C3.** After full ingest of a well-formed blob the frame table is
contiguous and exhaustive: the first frame starts at offset 0, each
frame's `end` is the next frame's `start`, the last frame's `end` is the
blob size, and the frame timestamps are non-decreasing. -/
theorem ingest_frames_contiguous (instrs : List Instr) (h : WellFormedRecording instrs) :
    (ingest instrs).frames ≠ [] ∧
    ((ingest instrs).frames.headD default).start = 0 ∧
    (∀ i, i < (ingest instrs).frames.length - 1 →
      ((ingest instrs).frames.getD i default).«end» =
        ((ingest instrs).frames.getD (i + 1) default).start) ∧
    ((ingest instrs).frames.getLast?.map (fun f => f.«end»)).getD 0 =
      (encodeRecording instrs).length ∧
    List.Pairwise (fun a b => a ≤ b) ((ingest instrs).frames.map Frame.timestamp) := by
  obtain ⟨hne, hlast, _, hpw⟩ := h
  obtain ⟨hchain, hstart, hend, hmapts⟩ := ingest_inv instrs
  obtain ⟨l, hl⟩ : ∃ l, instrs.getLast? = some l := by
    cases e : instrs.getLast? with
    | some l => exact ⟨l, rfl⟩
    | none => exact absurd (List.getLast?_eq_none_iff.mp e) hne
  have hlop : l.opcode = "sync" := by
    rw [hl] at hlast
    exact Option.some.inj hlast
  have hlsync : syncTs l = some (tsOf l.args) := by simp [syncTs, hlop]
  have hfne : (ingest instrs).frames ≠ [] := by
    intro hfe
    have hmem : tsOf l.args ∈ instrs.filterMap syncTs :=
      List.mem_filterMap.mpr ⟨l, List.mem_of_getLast?_eq_some hl, hlsync⟩
    rw [← hmapts, hfe] at hmem
    simp at hmem
  refine ⟨hfne, chainFrom_head _ 0 hchain hfne, ?_, ?_, ?_⟩
  · intro i hi
    exact chainFrom_link _ 0 i hchain (by omega)
  · obtain ⟨p, hp⟩ := List.getLast?_eq_some_iff.mp hl
    have hfs : (ingest instrs).frameStart = (ingest instrs).frameEnd := by
      rw [hp, ingest_append_single]
      exact handleInstruction_sync_start (ingest p) l hlop
    have : lastEndFrom 0 (ingest instrs).frames = (encodeRecording instrs).length := by
      rw [← hstart, hfs, hend, encodeRecording_length]
    rw [← this]
    rfl
  · rw [hmapts]
    exact hpw

/-- Witness for C3 at the single-frame recording of spec scenario 1
(blob `"4.sync,4.1000;"`). -/
theorem ingest_frames_contiguous_witness :
    WellFormedRecording [⟨"sync", ["1000"]⟩] ∧
    ((ingest [⟨"sync", ["1000"]⟩]).frames ≠ [] ∧
      ((ingest [⟨"sync", ["1000"]⟩]).frames.headD default).start = 0 ∧
      (∀ i, i < (ingest [⟨"sync", ["1000"]⟩]).frames.length - 1 →
        ((ingest [⟨"sync", ["1000"]⟩]).frames.getD i default).«end» =
          ((ingest [⟨"sync", ["1000"]⟩]).frames.getD (i + 1) default).start) ∧
      ((ingest [⟨"sync", ["1000"]⟩]).frames.getLast?.map (fun f => f.«end»)).getD 0 =
        (encodeRecording [⟨"sync", ["1000"]⟩]).length ∧
      List.Pairwise (fun a b => a ≤ b)
        ((ingest [⟨"sync", ["1000"]⟩]).frames.map Frame.timestamp)) :=
  ⟨by decide, ingest_frames_contiguous [⟨"sync", ["1000"]⟩] (by decide)⟩

/-! ## C4: keyframe spacing -/

lemma getD_append_left_frame (l l2 : List Frame) (n : Nat) (h : n < l.length) :
    (l ++ l2).getD n default = l.getD n default := by
  simp [List.getD_eq_getElem?_getD, List.getElem?_append_left h]

lemma getD_concat_length_frame (l : List Frame) (f : Frame) :
    (l ++ [f]).getD l.length default = f := by
  simp [List.getD_eq_getElem?_getD, List.getElem?_concat_length]

lemma headD_append_of_ne_nil (l l2 : List Frame) (h : l ≠ []) :
    (l ++ l2).headD default = l.headD default := by
  cases l with
  | nil => exact absurd rfl h
  | cons g rest => rfl

/-- Two frame indices are consecutive keyframes: both flagged, `a` before
`b`, and no flagged frame strictly between them. -/
def ConsecutiveKeyframes (frames : List Frame) (a b : Nat) : Prop :=
  a < b ∧ b < frames.length ∧
  (frames.getD a default).keyframe = true ∧
  (frames.getD b default).keyframe = true ∧
  ∀ j, j < b → a < j → (frames.getD j default).keyframe = false

instance (frames : List Frame) (a b : Nat) : Decidable (ConsecutiveKeyframes frames a b) := by
  unfold ConsecutiveKeyframes
  infer_instance

/-- Keyframe invariant of the loading pass, over the `frames` array and
the `lastKeyframe` index: frame 0 is flagged, `lastKeyframe` is the
greatest flagged index, and every pair of consecutive flagged frames
satisfies the character and time intervals the indexer checked when
flagging the later one. -/
def KeyframeInv (frames : List Frame) (lastKeyframe : Nat) : Prop :=
  (frames ≠ [] → (frames.headD default).keyframe = true) ∧
  (frames ≠ [] →
    lastKeyframe < frames.length ∧
    (frames.getD lastKeyframe default).keyframe = true ∧
    ∀ j, j < frames.length → lastKeyframe < j →
      (frames.getD j default).keyframe = false) ∧
  ∀ a b, ConsecutiveKeyframes frames a b →
    ((frames.getD b default).«end» : Int) - (frames.getD a default).start ≥
      KEYFRAME_CHAR_INTERVAL ∧
    (frames.getD b default).timestamp - (frames.getD a default).timestamp ≥
      KEYFRAME_TIME_INTERVAL

lemma keyframeInv_init : KeyframeInv ([] : List Frame) 0 := by
  refine ⟨fun h => absurd rfl h, fun h => absurd rfl h, fun a b hck => ?_⟩
  obtain ⟨_, hb, _⟩ := hck
  exact absurd hb (by simp)

lemma keyframeInv_append_kf (frames : List Frame) (lastKeyframe : Nat) (ts : Int) (st en : Nat)
    (h : KeyframeInv frames lastKeyframe)
    (hcond : (frames ++ [(⟨ts, st, en, false, none⟩ : Frame)]).length = 1 ∨
      ((en : Int) -
          ((frames ++ [(⟨ts, st, en, false, none⟩ : Frame)]).getD lastKeyframe default).start ≥
        KEYFRAME_CHAR_INTERVAL ∧
       ts - ((frames ++ [(⟨ts, st, en, false, none⟩ : Frame)]).getD
          lastKeyframe default).timestamp ≥ KEYFRAME_TIME_INTERVAL)) :
    KeyframeInv (frames ++ [⟨ts, st, en, true, none⟩]) frames.length := by
  obtain ⟨hhead, hlast, hpairs⟩ := h
  by_cases hne : frames = []
  · rw [hne]
    refine ⟨fun _ => rfl, fun _ => ⟨by simp, rfl, ?_⟩, fun a b hck => ?_⟩
    · intro j hj1 hj2
      simp at hj1
      omega
    · obtain ⟨hab, hb, _⟩ := hck
      simp at hb
      omega
  · -- the appended frame is at index `frames.length ≥ 1`, so the
    -- `frames.length === 1` disjunct is false and the interval check held
    have hpos : 0 < frames.length := List.length_pos.mpr hne
    have hn1 : (frames ++ [(⟨ts, st, en, false, none⟩ : Frame)]).length ≠ 1 := by
      rw [List.length_append, List.length_singleton]
      omega
    have hcheck := hcond.resolve_left hn1
    obtain ⟨hlk, hlkkf, hlkmax⟩ := hlast hne
    rw [getD_append_left_frame _ _ _ hlk] at hcheck
    have hgetn : (frames ++ [(⟨ts, st, en, true, none⟩ : Frame)]).getD frames.length default =
        ⟨ts, st, en, true, none⟩ := getD_concat_length_frame _ _
    have hlen : (frames ++ [(⟨ts, st, en, true, none⟩ : Frame)]).length =
        frames.length + 1 := by rw [List.length_append]; rfl
    refine ⟨fun _ => ?_, fun _ => ⟨?_, ?_, ?_⟩, ?_⟩
    · rw [headD_append_of_ne_nil _ _ hne]
      exact hhead hne
    · rw [hlen]
      omega
    · rw [hgetn]
    · intro j hj1 hj2
      rw [hlen] at hj1
      omega
    · intro a b hck
      obtain ⟨hab, hb, hakf, hbkf, hbetween⟩ := hck
      rw [hlen] at hb
      by_cases hbn : b < frames.length
      · -- both indices lie in the old table: the old invariant applies
        have ha' : a < frames.length := by omega
        rw [getD_append_left_frame _ _ a ha', getD_append_left_frame _ _ b hbn]
        refine hpairs a b ⟨hab, hbn, ?_, ?_, ?_⟩
        · rw [← getD_append_left_frame frames [(⟨ts, st, en, true, none⟩ : Frame)] a ha']
          exact hakf
        · rw [← getD_append_left_frame frames [(⟨ts, st, en, true, none⟩ : Frame)] b hbn]
          exact hbkf
        · intro j hj1 hj2
          rw [← getD_append_left_frame frames [(⟨ts, st, en, true, none⟩ : Frame)] j (by omega)]
          exact hbetween j hj1 hj2
      · -- the later keyframe is the new frame; its partner is `lastKeyframe`
        have hbn' : b = frames.length := by omega
        have ha' : a < frames.length := by omega
        have hakf' : (frames.getD a default).keyframe = true := by
          rw [← getD_append_left_frame frames [(⟨ts, st, en, true, none⟩ : Frame)] a ha']
          exact hakf
        have halk : a = lastKeyframe := by
          rcases Nat.lt_trichotomy a lastKeyframe with hcase | hcase | hcase
          · exfalso
            have hfalse := hbetween lastKeyframe (by omega) hcase
            rw [getD_append_left_frame _ _ _ hlk, hlkkf] at hfalse
            simp at hfalse
          · exact hcase
          · exact absurd (hakf'.symm.trans (hlkmax a ha' hcase)) (by simp)
        rw [hbn', halk, hgetn, getD_append_left_frame _ _ lastKeyframe hlk]
        exact hcheck

lemma keyframeInv_append_plain (frames : List Frame) (lastKeyframe : Nat) (ts : Int) (st en : Nat)
    (h : KeyframeInv frames lastKeyframe) (hne : frames ≠ []) :
    KeyframeInv (frames ++ [⟨ts, st, en, false, none⟩]) lastKeyframe := by
  obtain ⟨hhead, hlast, hpairs⟩ := h
  obtain ⟨hlk, hlkkf, hlkmax⟩ := hlast hne
  have hgetn : (frames ++ [(⟨ts, st, en, false, none⟩ : Frame)]).getD frames.length default =
      ⟨ts, st, en, false, none⟩ := getD_concat_length_frame _ _
  have hlen : (frames ++ [(⟨ts, st, en, false, none⟩ : Frame)]).length =
      frames.length + 1 := by rw [List.length_append]; rfl
  refine ⟨fun _ => ?_, fun _ => ⟨?_, ?_, ?_⟩, ?_⟩
  · rw [headD_append_of_ne_nil _ _ hne]
    exact hhead hne
  · rw [hlen]
    omega
  · rw [getD_append_left_frame _ _ _ hlk]
    exact hlkkf
  · intro j hj1 hj2
    rw [hlen] at hj1
    by_cases hjn : j < frames.length
    · rw [getD_append_left_frame _ _ _ hjn]
      exact hlkmax j hjn hj2
    · have hj : j = frames.length := by omega
      rw [hj, hgetn]
  · intro a b hck
    obtain ⟨hab, hb, hakf, hbkf, hbetween⟩ := hck
    rw [hlen] at hb
    have hbn : b < frames.length := by
      by_contra hc
      have hb' : b = frames.length := by omega
      rw [hb', hgetn] at hbkf
      simp at hbkf
    have ha' : a < frames.length := by omega
    rw [getD_append_left_frame _ _ a ha', getD_append_left_frame _ _ b hbn]
    refine hpairs a b ⟨hab, hbn, ?_, ?_, ?_⟩
    · rw [← getD_append_left_frame frames [(⟨ts, st, en, false, none⟩ : Frame)] a ha']
      exact hakf
    · rw [← getD_append_left_frame frames [(⟨ts, st, en, false, none⟩ : Frame)] b hbn]
      exact hbkf
    · intro j hj1 hj2
      rw [← getD_append_left_frame frames [(⟨ts, st, en, false, none⟩ : Frame)] j (by omega)]
      exact hbetween j hj1 hj2

lemma keyframeInv_step (s : IngestState) (instr : Instr)
    (h : KeyframeInv s.frames s.lastKeyframe) :
    KeyframeInv (handleInstruction s instr).frames (handleInstruction s instr).lastKeyframe := by
  by_cases hop : instr.opcode = "sync"
  · rw [handleInstruction]
    simp only [hop, if_true]
    split
    next hcond =>
      show KeyframeInv (s.frames ++ [_]) ((s.frames ++ [_]).length - 1)
      have hlen : (s.frames ++
          [(⟨tsOf instr.args, s.frameStart, s.frameEnd + instrSize instr, false, none⟩ :
            Frame)]).length - 1 = s.frames.length := by
        rw [List.length_append]
        rfl
      rw [hlen]
      exact keyframeInv_append_kf s.frames s.lastKeyframe (tsOf instr.args) s.frameStart
        (s.frameEnd + instrSize instr) h hcond
    next hcond =>
      refine keyframeInv_append_plain s.frames s.lastKeyframe (tsOf instr.args) s.frameStart
        (s.frameEnd + instrSize instr) h ?_
      intro hne
      exact hcond (Or.inl (by simp [hne]))
  · rw [handleInstruction_not_sync s instr hop]
    exact h

lemma keyframeInv_ingest (instrs : List Instr) :
    KeyframeInv (ingest instrs).frames (ingest instrs).lastKeyframe := by
  induction instrs using List.reverseRecOn with
  | nil => exact keyframeInv_init
  | append_singleton p instr ih =>
    rw [ingest_append_single]
    exact keyframeInv_step (ingest p) instr ih

/-- **C4 (amended).** After ingest, frame 0 is always flagged as a
keyframe, and any two consecutive keyframe-flagged frames `a < b` with
`a ≠ 0` satisfy `frames[b].end − frames[a].start ≥ 16384` and
`frames[b].timestamp − frames[a].timestamp ≥ 5000`.  (The indexer
compares the *end* of the candidate frame with the *start* of the last
keyframe; the claimed `frames[b].start − frames[a].start ≥ 16384` fails,
see the counterexample.) -/
theorem keyframe_spacing (instrs : List Instr) (a b : Nat)
    (hck : ConsecutiveKeyframes (ingest instrs).frames a b) (ha : a ≠ 0) :
    (((ingest instrs).frames ≠ [] →
        ((ingest instrs).frames.headD default).keyframe = true) ∧
      (((ingest instrs).frames.getD b default).«end» : Int) -
          ((ingest instrs).frames.getD a default).start ≥ KEYFRAME_CHAR_INTERVAL ∧
      ((ingest instrs).frames.getD b default).timestamp -
          ((ingest instrs).frames.getD a default).timestamp ≥ KEYFRAME_TIME_INTERVAL) := by
  obtain ⟨hhead, _, hpairs⟩ := keyframeInv_ingest instrs
  exact ⟨hhead, hpairs a b hck⟩

/-- Witness for C4 at the three-keyframe recording `kfInstrs`: frames 2
and 3 are consecutive keyframes and satisfy the (amended) spacing. -/
theorem keyframe_spacing_witness :
    (ConsecutiveKeyframes (ingest kfInstrs).frames 2 3 ∧ (2 : Nat) ≠ 0) ∧
    (((ingest kfInstrs).frames ≠ [] →
        ((ingest kfInstrs).frames.headD default).keyframe = true) ∧
      (((ingest kfInstrs).frames.getD 3 default).«end» : Int) -
          ((ingest kfInstrs).frames.getD 2 default).start ≥ KEYFRAME_CHAR_INTERVAL ∧
      ((ingest kfInstrs).frames.getD 3 default).timestamp -
          ((ingest kfInstrs).frames.getD 2 default).timestamp ≥ KEYFRAME_TIME_INTERVAL) := by
  have hck : ConsecutiveKeyframes (ingest kfInstrs).frames 2 3 := by
    rw [ingest_kfInstrs]
    decide
  exact ⟨⟨hck, by decide⟩, keyframe_spacing kfInstrs 2 3 hck (by decide)⟩

/-- Counterexample to C4 as stated: in the recording `kfInstrs`, frames 2
and 3 are consecutive keyframes with `a = 2 ≠ 0`, yet
`frames[3].start − frames[2].start = 14 < 16384`: the indexer separates a
keyframe's *end*, not its *start*, from the previous keyframe's start. -/
theorem keyframe_spacing_cex :
    ConsecutiveKeyframes (ingest kfInstrs).frames 2 3 ∧ (2 : Nat) ≠ 0 ∧
    ¬((((ingest kfInstrs).frames.getD 3 default).start : Int) -
        ((ingest kfInstrs).frames.getD 2 default).start ≥ KEYFRAME_CHAR_INTERVAL) := by
  refine ⟨?_, by decide, ?_⟩
  · rw [ingest_kfInstrs]
    decide
  · rw [ingest_kfInstrs]
    decide

/-! ## Frame search (`findFrame` and `toRelativeTimestamp`, player.js 737-791) -/

/-- `toRelativeTimestamp(timestamp)` (player.js 737-746): the timestamp
relative to the first frame, or zero if no frames exist. -/
def toRelativeTimestamp (frames : List Frame) (timestamp : Int) : Int :=
  if frames.length = 0 then 0
  else timestamp - (frames.headD default).timestamp

/-- The relative timestamp of the frame at index `i`. -/
def relTimestampAt (frames : List Frame) (i : Nat) : Int :=
  toRelativeTimestamp frames (frames.getD i default).timestamp

/-- `findFrame(minIndex, maxIndex, timestamp)` (player.js 769-791):
binary search for the frame whose relative timestamp is closest to
`timestamp`.  The midpoint `(minIndex + maxIndex) / 2` is written inline
where the source binds `midIndex`/`midTimestamp`. -/
def findFrame (frames : List Frame) (minIndex maxIndex : Nat) (timestamp : Int) : Nat :=
  if minIndex = maxIndex then minIndex
  else if h1 : timestamp <
        toRelativeTimestamp frames
          (frames.getD ((minIndex + maxIndex) / 2) default).timestamp ∧
      minIndex < (minIndex + maxIndex) / 2 then
    findFrame frames minIndex ((minIndex + maxIndex) / 2 - 1) timestamp
  else if h2 : toRelativeTimestamp frames
        (frames.getD ((minIndex + maxIndex) / 2) default).timestamp < timestamp ∧
      (minIndex + maxIndex) / 2 < maxIndex then
    findFrame frames ((minIndex + maxIndex) / 2 + 1) maxIndex timestamp
  else (minIndex + maxIndex) / 2
termination_by maxIndex - minIndex
decreasing_by
  · omega
  · omega

/-- Fuelled variant of `findFrame`, used to express that the recursion
depth of `findFrame` is bounded by the width of the search region. -/
def findFrameFuel (frames : List Frame) : Nat → Nat → Nat → Int → Option Nat
  | 0, _, _, _ => none
  | fuel + 1, minIndex, maxIndex, timestamp =>
    if minIndex = maxIndex then some minIndex
    else if timestamp <
        toRelativeTimestamp frames
          (frames.getD ((minIndex + maxIndex) / 2) default).timestamp ∧
        minIndex < (minIndex + maxIndex) / 2 then
      findFrameFuel frames fuel minIndex ((minIndex + maxIndex) / 2 - 1) timestamp
    else if toRelativeTimestamp frames
          (frames.getD ((minIndex + maxIndex) / 2) default).timestamp < timestamp ∧
        (minIndex + maxIndex) / 2 < maxIndex then
      findFrameFuel frames fuel ((minIndex + maxIndex) / 2 + 1) maxIndex timestamp
    else some ((minIndex + maxIndex) / 2)

lemma findFrameFuel_eq (frames : List Frame) :
    ∀ (fuel minIndex maxIndex : Nat) (timestamp : Int), maxIndex - minIndex < fuel →
      findFrameFuel frames fuel minIndex maxIndex timestamp =
        some (findFrame frames minIndex maxIndex timestamp) := by
  intro fuel
  induction fuel with
  | zero => intro minIndex maxIndex ts h; exact absurd h (by omega)
  | succ k ih =>
    intro minIndex maxIndex ts h
    rw [findFrameFuel, findFrame]
    by_cases he : minIndex = maxIndex
    · simp [he]
    · simp only [he, if_false]
      split
      next h1 =>
        exact ih minIndex ((minIndex + maxIndex) / 2 - 1) ts (by omega)
      next h1 =>
        split
        next h2 =>
          exact ih ((minIndex + maxIndex) / 2 + 1) maxIndex ts (by omega)
        next h2 => rfl

lemma findFrame_bounds (frames : List Frame) (minIndex maxIndex : Nat) (ts : Int) :
    minIndex ≤ maxIndex →
      minIndex ≤ findFrame frames minIndex maxIndex ts ∧
        findFrame frames minIndex maxIndex ts ≤ maxIndex := by
  induction minIndex, maxIndex, ts using findFrame.induct frames with
  | case1 maxIndex ts =>
    intro _
    rw [findFrame]
    simp
  | case2 minIndex maxIndex ts he h1 ih =>
    intro hle
    rw [findFrame, if_neg he, dif_pos h1]
    have hrec := ih (by omega)
    omega
  | case3 minIndex maxIndex ts he h1 h2 ih =>
    intro hle
    rw [findFrame, if_neg he, dif_neg h1, dif_pos h2]
    have hrec := ih (by omega)
    omega
  | case4 minIndex maxIndex ts he h1 h2 =>
    intro hle
    rw [findFrame, if_neg he, dif_neg h1, dif_neg h2]
    omega

lemma findFrame_exact (frames : List Frame) (minIndex maxIndex : Nat) (ts : Int) :
    minIndex ≤ maxIndex → maxIndex < frames.length →
      (∀ i j, minIndex ≤ i → i ≤ j → j ≤ maxIndex →
        relTimestampAt frames i ≤ relTimestampAt frames j) →
      (∃ i, minIndex ≤ i ∧ i ≤ maxIndex ∧ relTimestampAt frames i = ts) →
      relTimestampAt frames (findFrame frames minIndex maxIndex ts) = ts := by
  induction minIndex, maxIndex, ts using findFrame.induct frames with
  | case1 maxIndex ts =>
    intro _ _ _ hex
    obtain ⟨i, hi1, hi2, hi3⟩ := hex
    have : i = maxIndex := by omega
    rw [findFrame]
    simp only [if_pos rfl]
    rw [← this]
    exact hi3
  | case2 minIndex maxIndex ts he h1 ih =>
    intro hle hlen hsorted hex
    obtain ⟨i, hi1, hi2, hi3⟩ := hex
    have hmid : minIndex < (minIndex + maxIndex) / 2 := h1.2
    have h1' : ts < relTimestampAt frames ((minIndex + maxIndex) / 2) := h1.1
    have himid : i ≤ (minIndex + maxIndex) / 2 - 1 := by
      by_contra hc
      have hge : (minIndex + maxIndex) / 2 ≤ i := by omega
      have := hsorted ((minIndex + maxIndex) / 2) i (by omega) hge hi2
      omega
    rw [findFrame, if_neg he, dif_pos h1]
    exact ih (by omega) (by omega)
      (fun i j a b c => hsorted i j a b (by omega)) ⟨i, hi1, himid, hi3⟩
  | case3 minIndex maxIndex ts he h1 h2 ih =>
    intro hle hlen hsorted hex
    obtain ⟨i, hi1, hi2, hi3⟩ := hex
    have hmid : (minIndex + maxIndex) / 2 < maxIndex := h2.2
    have h2' : relTimestampAt frames ((minIndex + maxIndex) / 2) < ts := h2.1
    have himid : (minIndex + maxIndex) / 2 + 1 ≤ i := by
      by_contra hc
      have hle' : i ≤ (minIndex + maxIndex) / 2 := by omega
      have := hsorted i ((minIndex + maxIndex) / 2) hi1 hle' (by omega)
      omega
    rw [findFrame, if_neg he, dif_neg h1, dif_pos h2]
    exact ih (by omega) hlen
      (fun i j a b c => hsorted i j (by omega) b c) ⟨i, himid, hi2, hi3⟩
  | case4 minIndex maxIndex ts he h1 h2 =>
    intro hle hlen hsorted hex
    obtain ⟨i, hi1, hi2, hi3⟩ := hex
    rw [findFrame, if_neg he, dif_neg h1, dif_neg h2]
    rcases lt_trichotomy ts (relTimestampAt frames ((minIndex + maxIndex) / 2)) with hc | hc | hc
    · -- the midpoint already equals minIndex, so every index is at or
      -- above it and no exact match could exist: contradiction
      have hmid : (minIndex + maxIndex) / 2 = minIndex := by
        rcases not_and_or.mp h1 with hbad | hbad
        · exact absurd hc hbad
        · omega
      have := hsorted ((minIndex + maxIndex) / 2) i (by omega) (by omega) hi2
      omega
    · exact hc.symm
    · have hmid : (minIndex + maxIndex) / 2 = maxIndex := by
        rcases not_and_or.mp h2 with hbad | hbad
        · exact absurd hc hbad
        · omega
      have := hsorted i ((minIndex + maxIndex) / 2) hi1 (by omega) (by omega)
      omega

/-- **C2 (amended).** `findFrame` over a region `[minIndex, maxIndex]` of
the frame table returns an index within the region, returns the single
index when `minIndex = maxIndex`, and, when the relative timestamps are
non-decreasing and some frame in the region has relative timestamp
exactly equal to the searched position, returns a frame with exactly that
relative timestamp.  (The returned frame need *not* minimise
`|timestamp − position|`; see the counterexample.) -/
theorem findFrame_search (frames : List Frame) (minIndex maxIndex : Nat) (position : Int)
    (hle : minIndex ≤ maxIndex) (hlen : maxIndex < frames.length) :
    (minIndex ≤ findFrame frames minIndex maxIndex position ∧
      findFrame frames minIndex maxIndex position ≤ maxIndex) ∧
    (minIndex = maxIndex → findFrame frames minIndex maxIndex position = minIndex) ∧
    ((∀ i j, minIndex ≤ i → i ≤ j → j ≤ maxIndex →
        relTimestampAt frames i ≤ relTimestampAt frames j) →
      (∃ i, minIndex ≤ i ∧ i ≤ maxIndex ∧ relTimestampAt frames i = position) →
      relTimestampAt frames (findFrame frames minIndex maxIndex position) = position) := by
  refine ⟨findFrame_bounds frames minIndex maxIndex position hle, ?_, ?_⟩
  · intro he
    rw [findFrame, if_pos he]
  · exact findFrame_exact frames minIndex maxIndex position hle hlen

/-- A two-frame table with relative timestamps 0 and 100. -/
def twoFrames : List Frame :=
  [{ timestamp := 1000, start := 0, «end» := 11, keyframe := true },
   { timestamp := 1100, start := 11, «end» := 25 }]

/-- Witness for C2 (amended) on `twoFrames`, searching for position 100. -/
theorem findFrame_search_witness :
    ((0 : Nat) ≤ 1 ∧ 1 < twoFrames.length) ∧
    (((0 : Nat) ≤ findFrame twoFrames 0 1 100 ∧ findFrame twoFrames 0 1 100 ≤ 1) ∧
      ((0 : Nat) = 1 → findFrame twoFrames 0 1 100 = 0) ∧
      ((∀ i j, 0 ≤ i → i ≤ j → j ≤ 1 →
          relTimestampAt twoFrames i ≤ relTimestampAt twoFrames j) →
        (∃ i, 0 ≤ i ∧ i ≤ 1 ∧ relTimestampAt twoFrames i = 100) →
        relTimestampAt twoFrames (findFrame twoFrames 0 1 100) = 100)) :=
  ⟨by decide, findFrame_search twoFrames 0 1 100 (by decide) (by decide)⟩

/-- Counterexample to C2 as stated: searching `twoFrames` (relative
timestamps 0 and 100) for position 1, `findFrame` returns index 1, whose
distance 99 is not minimal — index 0 is at distance 1. -/
theorem findFrame_cex :
    findFrame twoFrames 0 1 1 = 1 ∧
    (relTimestampAt twoFrames 0 - 1).natAbs < (relTimestampAt twoFrames 1 - 1).natAbs := by
  have h := findFrameFuel_eq twoFrames 2 0 1 1 (by omega)
  have h2 : findFrameFuel twoFrames 2 0 1 1 = some 1 := by decide
  exact ⟨Option.some.inj (h.symm.trans h2), by decide⟩

/-- **C10.** `findFrame` terminates on every region `0 ≤ minIndex ≤
maxIndex < frames.length`: each recursive call strictly shrinks the
region, so fuel equal to the region's width plus one suffices for the
fuelled recursion to complete, agreeing with `findFrame`. -/
theorem findFrame_terminates (frames : List Frame) (minIndex maxIndex : Nat) (timestamp : Int)
    (h1 : minIndex ≤ maxIndex) (h2 : maxIndex < frames.length) :
    findFrameFuel frames (maxIndex - minIndex + 1) minIndex maxIndex timestamp =
      some (findFrame frames minIndex maxIndex timestamp) :=
  findFrameFuel_eq frames (maxIndex - minIndex + 1) minIndex maxIndex timestamp (by omega)

/-- Witness for C10 on `twoFrames`. -/
theorem findFrame_terminates_witness :
    ((0 : Nat) ≤ 1 ∧ 1 < twoFrames.length) ∧
    findFrameFuel twoFrames (1 - 0 + 1) 0 1 5 = some (findFrame twoFrames 0 1 5) :=
  ⟨by decide, findFrame_terminates twoFrames 0 1 5 (by decide) (by decide)⟩

/-! ## The playback engine (player.js 805-1233)

The engine's mutable variables become the fields of `RecordingState`.
The engine is single-threaded and cooperative: each public operation is
modelled as a function from state to state plus the list of events it
fires synchronously, up to the operation's first suspension point (a blob
read inside `replayFrame`, or a timer).  The user-supplied seek callback
is modelled by the `usercb` event; the `seekCallback` field holds the
`originallyPlaying` flag captured by the `restorePlaybackState` closure
installed by `seek()`. -/

/-- Events fired by the engine: the `onplay`/`onpause`/`onseek` handler
invocations and the invocation of the user's seek callback. -/
inductive REvent where
  | onplay : REvent
  | onpause : REvent
  | onseek (position : Int) (current : Int) (total : Int) : REvent
  | usercb : REvent
  deriving DecidableEq, Repr

/-- The playback-engine state of a `SessionRecording` (player.js
444-553): the frame table, `currentFrame` (−1 when nothing is rendered),
the two playback clocks (absent unless playing), the active seek token
(`some aborted`), and the pending seek callback's captured
`originallyPlaying` flag. -/
structure RecordingState where
  frames : List Frame
  currentFrame : Int
  startVideoTimestamp : Option Int
  startRealTimestamp : Option Int
  activeSeek : Option Bool
  seekCallback : Option Bool
  deriving DecidableEq, Repr

/-- The engine state of a freshly constructed `SessionRecording`. -/
def initRecording : RecordingState :=
  ⟨[], -1, none, none, none, none⟩

/-- JS truthiness of a nullable number: `!!x` is `false` for both `null`
and `0`. -/
def jsTruthyInt : Option Int → Bool
  | none => false
  | some v => v != 0

/-- `isPlaying()` (player.js 1070-1072): `return !!startVideoTimestamp`. -/
def isPlaying (s : RecordingState) : Bool :=
  jsTruthyInt s.startVideoTimestamp

/-- `getPosition()` (player.js 1081-1091). -/
def getPosition (s : RecordingState) : Int :=
  if s.currentFrame = -1 then 0
  else toRelativeTimestamp s.frames (s.frames.getD s.currentFrame.toNat default).timestamp

/-- `getDuration()` (player.js 1100-1109). -/
def getDuration (s : RecordingState) : Int :=
  if s.frames.length = 0 then 0
  else toRelativeTimestamp s.frames (s.frames.getD (s.frames.length - 1) default).timestamp

/-- `abortSeek()` (player.js 920-925): mark the active token aborted and
drop it.  The mark is only ever observed by the suspended replay loop
that holds the token; that loop's abandonment is modelled by its
continuation never being resumed, so the state retains no aborted
token. -/
def abortSeek (s : RecordingState) : RecordingState :=
  { s with activeSeek := none }

/-- `pause()` (player.js 1215-1233): abort any in-progress seek; if
playing, fire `onpause` and clear both clocks. -/
def pause (s : RecordingState) : RecordingState × List REvent :=
  let s1 := abortSeek s
  if isPlaying s1 then
    ({ s1 with startVideoTimestamp := none, startRealTimestamp := none }, [REvent.onpause])
  else (s1, [])

/-- `play()` (player.js 1121-1142), up to its first suspension point: if
not already playing and a next frame exists, fire `onplay` and set the
two clocks from the next frame's timestamp and the current wall clock.
The `continuePlayback()` call that follows in the source begins the
scheduled replay of the next frame; its effects happen at later
suspension points (blob reads and timers) and are modelled by
`seekToFrameRun`. -/
def play (s : RecordingState) (now : Int) : RecordingState × List REvent :=
  if ¬ isPlaying s ∧ s.currentFrame + 1 < (s.frames.length : Int) then
    let next := s.frames.getD (s.currentFrame + 1).toNat default
    ({ s with startVideoTimestamp := some next.timestamp, startRealTimestamp := some now },
      [REvent.onplay])
  else (s, [])

/-- The backward walk of `seekToFrame` (player.js 862-880): from the
target index, walk toward 0 until the index equals `currentFrame`
(current display state is the baseline) or a frame with a stored
`clientState` is found (returns `true` for `importState` restoration);
reaching below index 0 yields −1 with a blank baseline. -/
def backWalkAux (frames : List Frame) (currentFrame : Int) : Nat → Int × Bool
  | 0 =>
    if (0 : Int) = currentFrame then (0, false)
    else if (frames.getD 0 default).clientState.isSome then (0, true)
    else (-1, false)
  | k + 1 =>
    if ((k + 1 : Nat) : Int) = currentFrame then (((k + 1 : Nat) : Int), false)
    else if (frames.getD (k + 1) default).clientState.isSome then (((k + 1 : Nat) : Int), true)
    else backWalkAux frames currentFrame k

/-- `seekToFrame(index, callback)` (player.js 850-912) up to its first
suspension point: abort the previous seek, allocate a fresh token,
establish the baseline by the backward walk (on `importState` restoration
the source sets `currentFrame = index`, the *target*), then run the first
`continueReplay` iteration: fire `onseek` if the position advanced, and
either suspend entering `replayFrame(currentFrame + 1)` (returning the
pending index) or complete (returning `none`, upon which the caller
invokes the callback). -/
def seekToFrameBegin (s : RecordingState) (index : Nat) :
    RecordingState × List REvent × Option Nat :=
  let s1 : RecordingState := { abortSeek s with activeSeek := some false }
  let walk := backWalkAux s1.frames s1.currentFrame index
  let s2 : RecordingState :=
    if walk.2 then { s1 with currentFrame := (index : Int) } else s1
  let evs : List REvent :=
    if s2.currentFrame > walk.1 then
      [REvent.onseek
        (toRelativeTimestamp s2.frames (s2.frames.getD s2.currentFrame.toNat default).timestamp)
        (s2.currentFrame - walk.1) ((index : Int) - walk.1)]
    else []
  if s2.currentFrame < (index : Int) then (s2, evs, some (s2.currentFrame + 1).toNat)
  else (s2, evs, none)

/-- The `restorePlaybackState` thunk installed by `seek()` (player.js
1172-1187): clear `seekCallback`, restore playback via `play()` if the
engine was playing when the seek began, then invoke the user's
callback. -/
def restorePlaybackState (s : RecordingState) (originallyPlaying : Bool) (now : Int) :
    RecordingState × List REvent :=
  let s1 : RecordingState := { s with seekCallback := none }
  if originallyPlaying then
    let p := play s1 now
    (p.1, p.2 ++ [REvent.usercb])
  else (s1, [REvent.usercb])

/-- `cancel()` (player.js 1201-1206): if a seek callback is pending,
abort the active seek and invoke the callback (which restores playback
state and fires the user's callback). -/
def cancel (s : RecordingState) (now : Int) : RecordingState × List REvent :=
  match h : s.seekCallback with
  | none => (s, [])
  | some originallyPlaying => restorePlaybackState (abortSeek s) originallyPlaying now

/-- `seek(position, callback)` (player.js 1158-1192) up to its first
suspension point: no-op when no frames exist; otherwise cancel any
outstanding user seek, capture `originallyPlaying`, pause, install the
seek callback, locate the target frame via `findFrame`, and begin
`seekToFrame`.  When the seek completes without suspending, the installed
callback runs synchronously. -/
def seek (s : RecordingState) (position : Int) (now : Int) : RecordingState × List REvent :=
  if s.frames.length = 0 then (s, [])
  else
    let c := cancel s now
    let originallyPlaying := isPlaying c.1
    let p := pause c.1
    let s3 : RecordingState := { p.1 with seekCallback := some originallyPlaying }
    let target := findFrame s3.frames 0 (s3.frames.length - 1) position
    let b := seekToFrameBegin s3 target
    match b.2.2 with
    | some _ => (b.1, c.2 ++ p.2 ++ b.2.1)
    | none =>
      let r := restorePlaybackState b.1 originallyPlaying now
      (r.1, c.2 ++ p.2 ++ b.2.1 ++ r.2)

/-- `replayFrame(index, callback)` (player.js 805-829), run to the
completion of its blob read: the frame's instructions are fed through the
playback tunnel to the display client; on completion, if the frame is
keyframe-flagged and has no stored state, the exported client state is
stored into the frame; finally `currentFrame = index`.  The opaque
exported snapshot is modelled by the frame's index. -/
def replayFrameRun (s : RecordingState) (index : Nat) : RecordingState :=
  let frame := s.frames.getD index default
  let frames :=
    if frame.keyframe = true ∧ frame.clientState.isNone then
      s.frames.set index { frame with clientState := some ⟨index⟩ }
    else s.frames
  { s with frames := frames, currentFrame := (index : Int) }

/-- The `continueReplay` loop of `seekToFrame` (player.js 883-903), run
to completion under the assumption that every blob read completes and no
other operation intervenes (so the seek token is never aborted):
repeatedly fire `onseek` when the position advanced and replay the next
frame until `currentFrame` reaches the target, then invoke the callback.
Returns the final state, the events fired, the indices of the frames that
were replayed through the display client, and whether the callback was
invoked (`false` only when fuel runs out).  Fuel `index + 2` always
suffices since each replay advances `currentFrame`. -/
def continueReplayRun (fuel : Nat) (s : RecordingState) (startIndex : Int) (index : Nat) :
    RecordingState × List REvent × List Nat × Bool :=
  match fuel with
  | 0 => (s, [], [], false)
  | fuel + 1 =>
    let evs : List REvent :=
      if s.currentFrame > startIndex then
        [REvent.onseek
          (toRelativeTimestamp s.frames (s.frames.getD s.currentFrame.toNat default).timestamp)
          (s.currentFrame - startIndex) ((index : Int) - startIndex)]
      else []
    if s.currentFrame < (index : Int) then
      let nextIdx := (s.currentFrame + 1).toNat
      let s1 := replayFrameRun s nextIdx
      let rest := continueReplayRun fuel s1 startIndex index
      (rest.1, evs ++ rest.2.1, nextIdx :: rest.2.2.1, rest.2.2.2)
    else (s, evs, [], true)

/-- A whole `seekToFrame(index, callback)` run without interference:
token allocation, baseline establishment (with the source's
`currentFrame = index` assignment on `importState`), and the replay loop
run to completion. -/
def seekToFrameRun (s : RecordingState) (index : Nat) :
    RecordingState × List REvent × List Nat × Bool :=
  let s1 : RecordingState := { abortSeek s with activeSeek := some false }
  let walk := backWalkAux s1.frames s1.currentFrame index
  let s2 : RecordingState :=
    if walk.2 then { s1 with currentFrame := (index : Int) } else s1
  continueReplayRun (index + 2) s2 walk.1 index

/-! ## C5: `isPlaying` and the timestamp-0 play run -/

/-- A recording whose first frame carries timestamp 0. -/
def zeroTsFrames : List Frame :=
  [{ timestamp := 0, start := 0, «end» := 11, keyframe := true },
   { timestamp := 100, start := 11, «end» := 22 }]

/-- The engine state of the timestamp-0 recording before any playback. -/
def zeroTsState : RecordingState := ⟨zeroTsFrames, -1, none, none, none, none⟩

/-- **C5 (code evaluated at the failing input).** `play()` on a recording
whose first frame has timestamp 0 begins a play run (`onplay` fires and
`startVideoTimestamp` becomes present, holding 0), yet `isPlaying()`
returns `false`: the source tests `!!startVideoTimestamp`, and JS
truthiness conflates the stored timestamp 0 with `null`.  The claim
(presence-based `isPlaying`) describes the intent; the code diverges on
this input. -/
theorem isPlaying_zero_timestamp :
    (play zeroTsState 777).2 = [REvent.onplay] ∧
    (play zeroTsState 777).1.startVideoTimestamp = some 0 ∧
    ((play zeroTsState 777).1.startVideoTimestamp).isSome = true ∧
    isPlaying (play zeroTsState 777).1 = false := by
  decide

/-! ## C6: `seekToFrame` baseline restoration skips the forward replay -/

/-- A three-frame recording whose frame 0 is a keyframe with a stored
client state. -/
def storedKfFrames : List Frame :=
  [{ timestamp := 1000, start := 0, «end» := 14, keyframe := true,
     clientState := some ⟨0⟩ },
   { timestamp := 2000, start := 14, «end» := 28 },
   { timestamp := 3000, start := 28, «end» := 42 }]

/-- Engine state over `storedKfFrames` with nothing rendered yet. -/
def storedKfState : RecordingState := ⟨storedKfFrames, -1, none, none, none, none⟩

/-- **C6 (code evaluated at the failing input).** Seeking `storedKfState`
to frame 2 establishes the baseline at keyframe 0 via `importState`
(backward walk returns index 0 with restoration), and the source then
sets `currentFrame = 2` (the *target*): the forward replay loop
immediately sees `currentFrame < target` false and invokes the callback
having replayed *no* frames through the display client — frames 1 and 2
are never replayed, contrary to the claim (and to spec section 4.4's
note; spec section 9 records this as a latent bug). -/
theorem seekToFrame_skips_replay :
    backWalkAux storedKfFrames (-1) 2 = (0, true) ∧
    (seekToFrameRun storedKfState 2).2.2.1 = [] ∧
    (seekToFrameRun storedKfState 2).2.2.2 = true ∧
    (seekToFrameRun storedKfState 2).1.currentFrame = 2 := by
  decide

/-! ## C7: graceful degradation on an empty frame table -/

/-- **C7.** On a recording with no frames, `seek` returns without
changing any state or firing events, `play` likewise (for the reachable
`currentFrame ≥ −1`), `getDuration()` is 0, and `getPosition()` is 0 (in
the reachable empty-frames states, where `currentFrame = −1`). -/
theorem empty_frames_noop (s : RecordingState) (position now : Int)
    (h : s.frames = []) :
    seek s position now = (s, []) ∧
    (-1 ≤ s.currentFrame → play s now = (s, [])) ∧
    getDuration s = 0 ∧
    (s.currentFrame = -1 → getPosition s = 0) := by
  refine ⟨?_, ?_, ?_, ?_⟩
  · rw [seek, if_pos (by rw [h]; rfl)]
  · intro hcf
    rw [play, if_neg ?_]
    intro hcond
    have := hcond.2
    rw [h] at this
    simp at this
    omega
  · rw [getDuration, if_pos (by rw [h]; rfl)]
  · intro hcf
    rw [getPosition, if_pos hcf]

/-- Witness for C7 at the initial state of a fresh recording. -/
theorem empty_frames_noop_witness :
    initRecording.frames = [] ∧
    (seek initRecording 5 7 = (initRecording, []) ∧
      (-1 ≤ initRecording.currentFrame → play initRecording 7 = (initRecording, [])) ∧
      getDuration initRecording = 0 ∧
      (initRecording.currentFrame = -1 → getPosition initRecording = 0)) :=
  ⟨rfl, empty_frames_noop initRecording 5 7 rfl⟩

/-! ## C9: cancelling an in-flight user seek -/

lemma play_seekCallback (s : RecordingState) (now : Int) :
    (play s now).1.seekCallback = s.seekCallback := by
  rw [play]
  split
  · rfl
  · rfl

lemma play_frames (s : RecordingState) (now : Int) : (play s now).1.frames = s.frames := by
  rw [play]
  split
  · rfl
  · rfl

lemma restorePlaybackState_seekCallback (s : RecordingState) (op : Bool) (now : Int) :
    (restorePlaybackState s op now).1.seekCallback = none := by
  rw [restorePlaybackState]
  cases op with
  | false => rfl
  | true =>
    show (play { s with seekCallback := none } now).1.seekCallback = none
    rw [play_seekCallback]

lemma restorePlaybackState_count (s : RecordingState) (op : Bool) (now : Int) :
    (restorePlaybackState s op now).2.count REvent.usercb = 1 := by
  rw [restorePlaybackState]
  cases op with
  | false => rfl
  | true =>
    show ((play { s with seekCallback := none } now).2 ++ [REvent.usercb]).count
        REvent.usercb = 1
    rw [play]
    split
    · rfl
    · rfl

lemma cancel_none (s : RecordingState) (now : Int) (h : s.seekCallback = none) :
    cancel s now = (s, []) := by
  rw [cancel]
  split
  next heq => rfl
  next op heq =>
    rw [h] at heq
    exact absurd heq (by simp)

lemma cancel_pending (s : RecordingState) (now : Int) (op : Bool)
    (h : s.seekCallback = some op) :
    (cancel s now).2.count REvent.usercb = 1 ∧
    (cancel s now).1.seekCallback = none ∧
    (op = false →
      (cancel s now).1 = { s with activeSeek := none, seekCallback := none }) := by
  have hc : cancel s now = restorePlaybackState (abortSeek s) op now := by
    rw [cancel]
    split
    next heq => rw [h] at heq; exact absurd heq (by simp)
    next op' heq =>
      rw [h] at heq
      rw [Option.some.inj heq]
  rw [hc]
  refine ⟨restorePlaybackState_count _ op now, restorePlaybackState_seekCallback _ op now, ?_⟩
  intro hop
  rw [hop, restorePlaybackState]
  rfl

lemma pause_isPlaying (s : RecordingState) : isPlaying (pause s).1 = false := by
  rw [pause]
  split
  next h => rfl
  next h => simpa using h

lemma pause_seekCallback (s : RecordingState) : (pause s).1.seekCallback = s.seekCallback := by
  rw [pause]
  split
  · rfl
  · rfl

lemma seekToFrameBegin_fst (s : RecordingState) (index : Nat) :
    (seekToFrameBegin s index).1.startVideoTimestamp = s.startVideoTimestamp ∧
    (seekToFrameBegin s index).1.seekCallback = s.seekCallback := by
  rw [seekToFrameBegin]
  split
  · split
    · exact ⟨rfl, rfl⟩
    · exact ⟨rfl, rfl⟩
  · split
    · exact ⟨rfl, rfl⟩
    · exact ⟨rfl, rfl⟩

/-- After `seek()` returns, either the engine is not playing (the seek is
still in flight, its callback pending after the `pause()` inside
`seek()`), or the seek already completed and no callback is pending. -/
lemma seek_result (s0 : RecordingState) (position now : Int)
    (hne : ¬(s0.frames.length = 0)) :
    isPlaying (seek s0 position now).1 = false ∨
      (seek s0 position now).1.seekCallback = none := by
  rw [seek, if_neg hne]
  simp only []
  split
  next heq =>
    left
    rw [isPlaying, (seekToFrameBegin_fst _ _).1]
    exact pause_isPlaying _
  next heq =>
    right
    exact restorePlaybackState_seekCallback _ _ _

/-- **C9 (amended).** Calling `cancel()` on an in-flight user seek
started by `seek(position, callback)` invokes the user callback exactly
once, a second `cancel()` is a no-op (the seek callback clears itself),
and `isPlaying()` is `false` afterwards *when the engine was not playing
when the seek began*; when it was playing, the callback restores playback
via `play()`, so `isPlaying()` need not be `false` (see the
counterexample). -/
theorem cancel_during_seek (s0 : RecordingState) (position now now' now'' : Int) (op : Bool)
    (hne : s0.frames ≠ [])
    (hsusp : (seek s0 position now).1.seekCallback = some op) :
    ((cancel (seek s0 position now).1 now').2.count REvent.usercb = 1) ∧
    cancel (cancel (seek s0 position now).1 now').1 now'' =
      ((cancel (seek s0 position now).1 now').1, []) ∧
    (op = false → isPlaying (cancel (seek s0 position now).1 now').1 = false) := by
  have hp := cancel_pending (seek s0 position now).1 now' op hsusp
  refine ⟨hp.1, cancel_none _ now'' hp.2.1, ?_⟩
  intro hop
  have hres := hp.2.2 hop
  rw [hres]
  have hlen : ¬(s0.frames.length = 0) := by
    simpa using hne
  exact (seek_result s0 position now hlen).resolve_right (by rw [hsusp]; simp)

/-- A three-frame recording with nonzero timestamps. -/
def playingFrames : List Frame :=
  [{ timestamp := 1000, start := 0, «end» := 14 },
   { timestamp := 2000, start := 14, «end» := 28 },
   { timestamp := 3000, start := 28, «end» := 42 }]

/-- Engine state over `playingFrames`, playing: frame 0 rendered and a
play run begun at frame 1 (clocks present). -/
def playingState : RecordingState := ⟨playingFrames, 0, some 2000, some 500, none, none⟩

/-- Engine state over `playingFrames`, paused at frame 0. -/
def pausedState : RecordingState := ⟨playingFrames, 0, none, none, none, none⟩

lemma findFrame_playingFrames : findFrame playingFrames 0 2 2000 = 2 := by
  have h := findFrameFuel_eq playingFrames 3 0 2 2000 (by omega)
  have h2 : findFrameFuel playingFrames 3 0 2 2000 = some 2 := by decide
  exact Option.some.inj (h.symm.trans h2)

lemma seek_playingState_eval :
    seek playingState 2000 600 =
      (⟨playingFrames, 0, none, none, some false, some true⟩, [REvent.onpause]) := by
  have hc : cancel playingState 600 = (playingState, []) := by decide
  have hip : isPlaying playingState = true := by decide
  have hpause : pause playingState =
      (⟨playingFrames, 0, none, none, none, none⟩, [REvent.onpause]) := by decide
  have hlen : playingFrames.length - 1 = 2 := by decide
  have hb : seekToFrameBegin ⟨playingFrames, 0, none, none, none, some true⟩ 2 =
      (⟨playingFrames, 0, none, none, some false, some true⟩, [], some 1) := by decide
  rw [seek, if_neg (by decide)]
  simp only [hc, hip, hpause, hlen, findFrame_playingFrames, hb]
  rfl

lemma seek_pausedState_eval :
    seek pausedState 2000 600 =
      (⟨playingFrames, 0, none, none, some false, some false⟩, []) := by
  have hc : cancel pausedState 600 = (pausedState, []) := by decide
  have hip : isPlaying pausedState = false := by decide
  have hpause : pause pausedState = (⟨playingFrames, 0, none, none, none, none⟩, []) := by
    decide
  have hlen : playingFrames.length - 1 = 2 := by decide
  have hb : seekToFrameBegin ⟨playingFrames, 0, none, none, none, some false⟩ 2 =
      (⟨playingFrames, 0, none, none, some false, some false⟩, [], some 1) := by decide
  rw [seek, if_neg (by decide)]
  simp only [hc, hip, hpause, hlen, findFrame_playingFrames, hb]
  rfl

/-- Witness for C9 (amended): a seek begun while paused, then cancelled:
the user callback fires exactly once, a second `cancel()` is a no-op,
and the engine is left not playing. -/
theorem cancel_during_seek_witness :
    (pausedState.frames ≠ [] ∧ (seek pausedState 2000 600).1.seekCallback = some false) ∧
    (((cancel (seek pausedState 2000 600).1 700).2.count REvent.usercb = 1) ∧
      cancel (cancel (seek pausedState 2000 600).1 700).1 800 =
        ((cancel (seek pausedState 2000 600).1 700).1, []) ∧
      (false = false → isPlaying (cancel (seek pausedState 2000 600).1 700).1 = false)) :=
  ⟨⟨by decide, by rw [seek_pausedState_eval]⟩,
    cancel_during_seek pausedState 2000 600 700 800 false (by decide)
      (by rw [seek_pausedState_eval])⟩

/-- Counterexample to C9 as stated: cancelling a seek that began while
the engine was *playing* invokes the user callback once but leaves
`isPlaying() = true` — the seek callback restores playback via `play()`,
contradicting "leaves `isPlaying() == false` ... regardless of whether
the engine was playing when the seek began". -/
theorem cancel_during_seek_cex :
    (seek playingState 2000 600).1.seekCallback = some true ∧
    ((cancel (seek playingState 2000 600).1 700).2.count REvent.usercb = 1) ∧
    isPlaying (cancel (seek playingState 2000 600).1 700).1 = true := by
  rw [seek_playingState_eval]
  refine ⟨rfl, ?_, ?_⟩
  · decide
  · decide

/-! ## C8: stored client state implies keyframe -/

lemma handleInstruction_frames_mem (st : IngestState) (instr : Instr) (g : Frame)
    (hg : g ∈ (handleInstruction st instr).frames) :
    g ∈ st.frames ∨ g.clientState = none := by
  by_cases hop : instr.opcode = "sync"
  · obtain ⟨kf, hfr, _, _⟩ := handleInstruction_sync_fields st instr hop
    rw [hfr] at hg
    rcases List.mem_append.mp hg with hmem | hmem
    · exact Or.inl hmem
    · right
      rw [List.mem_singleton.mp hmem]
  · rw [handleInstruction_not_sync st instr hop] at hg
    exact Or.inl hg

lemma replayFrameRun_frames_mem (s : RecordingState) (index : Nat) (g : Frame)
    (hg : g ∈ (replayFrameRun s index).frames) :
    g ∈ s.frames ∨ g.keyframe = true := by
  rw [replayFrameRun] at hg
  simp only [] at hg
  split at hg
  next hguard =>
    rcases List.mem_or_eq_of_mem_set hg with hmem | heq
    · exact Or.inl hmem
    · right
      rw [heq]
      exact hguard.1
  next hguard => exact Or.inl hg

lemma pause_frames (s : RecordingState) : (pause s).1.frames = s.frames := by
  rw [pause]
  split
  · rfl
  · rfl

lemma restorePlaybackState_frames (s : RecordingState) (op : Bool) (now : Int) :
    (restorePlaybackState s op now).1.frames = s.frames := by
  rw [restorePlaybackState]
  cases op with
  | false => rfl
  | true =>
    show (play { s with seekCallback := none } now).1.frames = s.frames
    rw [play_frames]

lemma cancel_frames (s : RecordingState) (now : Int) :
    (cancel s now).1.frames = s.frames := by
  rw [cancel]
  split
  · rfl
  · exact restorePlaybackState_frames _ _ _

lemma seekToFrameBegin_frames (s : RecordingState) (index : Nat) :
    (seekToFrameBegin s index).1.frames = s.frames := by
  rw [seekToFrameBegin]
  split
  · split
    · rfl
    · rfl
  · split
    · rfl
    · rfl

lemma seek_frames (s : RecordingState) (position now : Int) :
    (seek s position now).1.frames = s.frames := by
  rw [seek]
  split
  · rfl
  · simp only []
    split
    · exact (seekToFrameBegin_frames _ _).trans
        ((pause_frames _).trans (cancel_frames _ _))
    · exact (restorePlaybackState_frames _ _ _).trans
        ((seekToFrameBegin_frames _ _).trans
          ((pause_frames _).trans (cancel_frames _ _)))

lemma continueReplayRun_frames_mem :
    ∀ (fuel : Nat) (s : RecordingState) (startIndex : Int) (index : Nat) (g : Frame),
      g ∈ (continueReplayRun fuel s startIndex index).1.frames →
      g ∈ s.frames ∨ g.keyframe = true := by
  intro fuel
  induction fuel with
  | zero => intro s st idx g hg; exact Or.inl hg
  | succ k ih =>
    intro s st idx g hg
    rw [continueReplayRun] at hg
    simp only [] at hg
    split at hg
    next hlt =>
      rcases ih (replayFrameRun s (s.currentFrame + 1).toNat) st idx g hg with hmem | hkf
      · exact replayFrameRun_frames_mem _ _ _ hmem
      · exact Or.inr hkf
    next hlt => exact Or.inl hg

lemma seekToFrameRun_frames_mem (s : RecordingState) (index : Nat) (g : Frame)
    (hg : g ∈ (seekToFrameRun s index).1.frames) :
    g ∈ s.frames ∨ g.keyframe = true := by
  rw [seekToFrameRun] at hg
  simp only [] at hg
  split at hg
  · rcases continueReplayRun_frames_mem _ _ _ _ g hg with hmem | hkf
    · exact Or.inl hmem
    · exact Or.inr hkf
  · rcases continueReplayRun_frames_mem _ _ _ _ g hg with hmem | hkf
    · exact Or.inl hmem
    · exact Or.inr hkf

/-- One synchronous step of the engine: an ingest-side
`handleInstruction` appending to the shared frame table (with the
loading cursors in any configuration), or any playback operation. -/
inductive Step : RecordingState → RecordingState → Prop where
  | ingestStep (s : RecordingState) (instr : Instr) (lk fs fe : Nat) :
      Step s { s with frames := (handleInstruction ⟨s.frames, lk, fs, fe⟩ instr).frames }
  | playStep (s : RecordingState) (now : Int) : Step s (play s now).1
  | pauseStep (s : RecordingState) : Step s (pause s).1
  | cancelStep (s : RecordingState) (now : Int) : Step s (cancel s now).1
  | seekStep (s : RecordingState) (position now : Int) : Step s (seek s position now).1
  | runStep (s : RecordingState) (index : Nat) : Step s (seekToFrameRun s index).1
  | replayStep (s : RecordingState) (index : Nat) : Step s (replayFrameRun s index)

/-- Engine states reachable from a freshly constructed recording. -/
def Reachable (s : RecordingState) : Prop :=
  Relation.ReflTransGen Step initRecording s

/-- **C8.** In every reachable engine state, a frame with a stored
`clientState` is keyframe-flagged: ingest appends frames with
`clientState` absent, and the only operation that stores a state —
`replayFrame`'s completion — does so only when `frame.keyframe` holds and
the state is absent. -/
theorem clientState_implies_keyframe (s : RecordingState) (h : Reachable s) :
    ∀ f ∈ s.frames, f.clientState.isSome = true → f.keyframe = true := by
  induction h with
  | refl => intro f hf; exact absurd hf (by simp [initRecording])
  | tail hr hstep ih =>
    rename_i sb sc
    cases hstep with
    | ingestStep instr lk fs fe =>
      intro f hf hsome
      rcases handleInstruction_frames_mem ⟨sb.frames, lk, fs, fe⟩ instr f hf with hmem | hnone
      · exact ih f hmem hsome
      · rw [hnone] at hsome
        exact absurd hsome (by simp)
    | playStep now =>
      intro f hf
      rw [play_frames] at hf
      exact ih f hf
    | pauseStep =>
      intro f hf
      rw [pause_frames] at hf
      exact ih f hf
    | cancelStep now =>
      intro f hf
      rw [cancel_frames] at hf
      exact ih f hf
    | seekStep position now =>
      intro f hf
      rw [seek_frames] at hf
      exact ih f hf
    | runStep index =>
      intro f hf hsome
      rcases seekToFrameRun_frames_mem sb index f hf with hmem | hkf
      · exact ih f hmem hsome
      · exact hkf
    | replayStep index =>
      intro f hf hsome
      rcases replayFrameRun_frames_mem sb index f hf with hmem | hkf
      · exact ih f hmem hsome
      · exact hkf

/-- Witness for C8: reach a state by ingesting one `sync` frame and then
replaying frame 0 (which stores a client state into the keyframe-flagged
frame); frame 0 of that state has a stored client state and is indeed
keyframe-flagged. -/
theorem clientState_implies_keyframe_witness :
    ((replayFrameRun
        { initRecording with
          frames := (handleInstruction ⟨initRecording.frames, 0, 0, 0⟩
            ⟨"sync", ["1000"]⟩).frames } 0).frames.getD 0 default).clientState.isSome = true ∧
    ((replayFrameRun
        { initRecording with
          frames := (handleInstruction ⟨initRecording.frames, 0, 0, 0⟩
            ⟨"sync", ["1000"]⟩).frames } 0).frames.getD 0 default).keyframe = true :=
  ⟨by decide,
    clientState_implies_keyframe _
      (Relation.ReflTransGen.tail
        (Relation.ReflTransGen.tail Relation.ReflTransGen.refl
          (Step.ingestStep initRecording ⟨"sync", ["1000"]⟩ 0 0 0))
        (Step.replayStep _ 0))
      _ (by decide) (by decide)⟩

end SessionRecordingModel
